import Mathlib

/-!
Shallow embedding of the scoring aggregation and ranking engine of
`src/rib_tasting.py`, with theorems checking the specification's claims.

Modelling conventions:
* Python `dict`s become association lists in insertion order (`Dict`), with
  dict assignment modelled by `dictSet` (replace in place, else append) so that
  iteration order matches CPython's insertion-order semantics.
* Python floats become exact rationals (`ℚ`); the arithmetic in the source is
  sums, products by 5 and one division, all exact on the inputs of interest.
* The module-level constants `CATEGORIES` and `RIB_SETS` are passed to the
  embedded functions as explicit parameters (the source reads them as globals),
  so the spec's scenario configuration can be instantiated as well.
* I/O (Google Sheets RPCs) is modelled by an oracle `svc : Nat → Bool` saying
  whether the k-th append call succeeds; the `except HttpError` branch of the
  source corresponds to the `false` result.
-/

/-- Python `dict`, as an association list in insertion order. -/
abbrev Dict (α β : Type) := List (α × β)

/-- First-match association lookup (Python dict access; keys are unique in
any list built by `dictSet`, so first match equals the dict entry). -/
def dlookup {α β : Type} [DecidableEq α] : Dict α β → α → Option β
  | [], _ => none
  | (k', v) :: rest, k => if k' = k then some v else dlookup rest k

/-- Python `d.get(k, dflt)`. -/
def dget {α β : Type} [DecidableEq α] (d : Dict α β) (k : α) (dflt : β) : β :=
  (dlookup d k).getD dflt

/-- Python `k in d`. -/
def containsKey {α β : Type} [DecidableEq α] (d : Dict α β) (k : α) : Bool :=
  (dlookup d k).isSome

/-- Python `d[k] = v`: replace the entry in place when the key is present,
append it otherwise (CPython keeps the key's original position). -/
def dictSet {α β : Type} [DecidableEq α] : Dict α β → α → β → Dict α β
  | [], k, v => [(k, v)]
  | (k', v') :: rest, k, v =>
    if k' = k then (k', v) :: rest else (k', v') :: dictSet rest k v

/-- Update the value stored at `k` in place; no-op when the key is absent. -/
def updateValue {α β : Type} [DecidableEq α] : Dict α β → α → (β → β) → Dict α β
  | [], _, _ => []
  | (k', v') :: rest, k, f =>
    if k' = k then (k', f v') :: rest else (k', v') :: updateValue rest k f

/-- `CATEGORIES` (src lines 15–20): id ↦ (display name, max), in source order. -/
def CATEGORIES : Dict String (String × Nat) :=
  [("tenderness", ("Tenderness", 5)),
   ("flavor_sauce", ("Flavor / Sauce", 5)),
   ("smoke_char", ("Smoke / Char / Base Rub", 5)),
   ("overall", ("Overall Taste", 5))]

/-- `CATEGORIES.keys()` in iteration (insertion) order. -/
def CATEGORIES_keys : List String := CATEGORIES.map (fun p => p.1)

/-- `RIB_SETS` (src line 22). -/
def RIB_SETS : List String :=
  ["Set A", "Set B", "Set C", "Set D", "Set E", "Set F"]

/-- One stored submission, the source's
`{'user_name': …, 'timestamp': …, 'scores': {set_idx: {cat_id: int}}}`
(src lines 198–202). -/
structure Submission where
  user_name : String
  timestamp : String
  scores : Dict Nat (Dict String Int)

deriving instance DecidableEq for Submission

/-- `calculate_total` (src lines 60–62): `sum(scores_dict.get(cat_id, 0) * 5
for cat_id in CATEGORIES.keys())`.  The Python function is applied both to
integer score dicts and to rational mean dicts, so it is generic in the
numeric type; `cats` stands for the global `CATEGORIES.keys()`. -/
def calculate_total {R : Type} [Semiring R] (cats : List String)
    (scores_dict : Dict String R) : R :=
  (cats.map (fun cat_id => dget scores_dict cat_id 0 * 5)).sum

/-- The score collection of src lines 218–219:
`[s['scores'][i].get(cat_id, 0) for s in scores_list
  if i in s['scores'] and cat_id in s['scores'][i]]`. -/
def collectScores (scores_list : List Submission) (i : Nat) (cat_id : String) :
    List Int :=
  (scores_list.filter
      (fun s => containsKey s.scores i && containsKey (dget s.scores i []) cat_id)).map
    (fun s => dget (dget s.scores i []) cat_id 0)

/-- `sum(scores) / len(scores) if scores else 0` (src line 220), Python float
division modelled as exact rational division. -/
def meanOrZero (scores : List Int) : ℚ :=
  if scores.isEmpty then 0
  else ((scores.map (fun x => (x : ℚ))).sum) / (scores.length : ℚ)

/-- The body of the per-rib-set loop of `calculate_averages` (src lines
216–221): fill the category means into a fresh dict, then store the total
under the `'total'` key of the same dict. -/
def setEntry (cats : List String) (scores_list : List Submission) (i : Nat) :
    Dict String ℚ :=
  let base := cats.foldl
    (fun acc cat_id => dictSet acc cat_id (meanOrZero (collectScores scores_list i cat_id))) []
  dictSet base "total" (calculate_total cats base)

/-- `calculate_averages` (src lines 209–223).  Returns `none` for an empty
submission list (`if not scores_list: return None`), otherwise the dict
rib-set name ↦ (category means and total), built over `enumerate(RIB_SETS)`. -/
def calculate_averages (cats sets : List String) (scores_list : List Submission) :
    Option (Dict String (Dict String ℚ)) :=
  if scores_list.isEmpty then none
  else some (sets.enum.foldl
    (fun acc p => dictSet acc p.2 (setEntry cats scores_list p.1)) [])

/-- The entry built by `save_submission` (src lines 198–202); `now` stands for
`datetime.now().isoformat()`. -/
def mk_entry (name now : String) (submission : Dict Nat (Dict String Int)) : Submission :=
  ⟨name, now, submission⟩

/-- The in-memory effect of `save_submission` (src line 203): append the new
entry to `st.session_state.scores`. -/
def save_submission (scores : List Submission) (name now : String)
    (submission : Dict Nat (Dict String Int)) : List Submission :=
  scores ++ [mk_entry name now submission]

/-- The completeness check guarding submission (src lines 314–318):
`all(cat in current_submission[i] for cat in CATEGORIES.keys())` for every
`i in range(len(RIB_SETS))`. -/
def isComplete (cats sets : List String) (submission : Dict Nat (Dict String Int)) :
    Bool :=
  (List.range sets.length).all
    (fun i => cats.all (fun cat_id => containsKey (dget submission i []) cat_id))

/-- One fully scored rib set (every category of the source configuration holds
the in-range score 3). -/
def fullEntry : Dict String Int :=
  [("tenderness", 3), ("flavor_sauce", 3), ("smoke_char", 3), ("overall", 3)]

/-- A complete submission under the source configuration: every one of the six
rib sets carries a score entry for every category. -/
def fullSub : Dict Nat (Dict String Int) :=
  [(0, fullEntry), (1, fullEntry), (2, fullEntry),
   (3, fullEntry), (4, fullEntry), (5, fullEntry)]

/-- One spreadsheet cell as written by `save_to_sheets`. -/
inductive Cell where
  | str (v : String)
  | int (v : Int)

deriving instance DecidableEq for Cell

/-- The row flattened for one rib set (src lines 72–79):
`[timestamp, user_name, rib_set, score per category…, total]`. -/
def sheetRow (cats : List String) (entry : Submission) (i : Nat) (rib_set : String) :
    List Cell :=
  [Cell.str entry.timestamp, Cell.str entry.user_name, Cell.str rib_set]
    ++ cats.map (fun cat_id => Cell.int (dget (dget entry.scores i []) cat_id 0))
    ++ [Cell.int (calculate_total cats (dget entry.scores i []))]

/-- The append loop of `save_to_sheets` (src lines 71–93): `svc k` says whether
the k-th `values().append` RPC succeeds.  On the first failure the
`except HttpError` branch returns `False`, leaving the rows appended so far in
the ledger; when every RPC succeeds the function returns `True`. -/
def appendRows (svc : Nat → Bool) : Nat → List (List Cell) → List (List Cell) →
    Bool × List (List Cell)
  | _, ledger, [] => (true, ledger)
  | k, ledger, r :: rs =>
    if svc k then appendRows svc (k + 1) (ledger ++ [r]) rs else (false, ledger)

/-- `save_to_sheets` (src lines 64–93) over the ledger state. -/
def save_to_sheets (svc : Nat → Bool) (ledger : List (List Cell))
    (cats sets : List String) (entry : Submission) : Bool × List (List Cell) :=
  appendRows svc 0 ledger (sets.enum.map (fun p => sheetRow cats entry p.1 p.2))

/-- `save_submission` with its Sheets side effect (src lines 196–207): append
to the in-memory list first, then, when connected, push the rows to the
ledger; the boolean returned by `save_to_sheets` is ignored by the source and
exposed here as part of the result. -/
def save_submission_full (svc : Nat → Bool) (connected : Bool)
    (ledger : List (List Cell)) (scores : List Submission) (cats sets : List String)
    (name now : String) (submission : Dict Nat (Dict String Int)) :
    List Submission × Bool × List (List Cell) :=
  let entry := mk_entry name now submission
  let mem := scores ++ [entry]
  if connected then
    let r := save_to_sheets svc ledger cats sets entry
    (mem, r.1, r.2)
  else (mem, true, ledger)

/-- Value of a decimal digit character, `none` otherwise. -/
def digitVal (c : Char) : Option Nat :=
  if '0' ≤ c ∧ c ≤ '9' then some (c.toNat - '0'.toNat) else none

/-- Decimal accumulation over the remaining characters; fails on any
non-digit. -/
def parseNatAux : List Char → Nat → Option Nat
  | [], acc => some acc
  | c :: cs, acc =>
    match digitVal c with
    | some d => parseNatAux cs (acc * 10 + d)
    | none => none

/-- Python `int(cell)` on a decimal string, as used on the numeric cells of a
sheet row (an optional leading minus sign then decimal digits). -/
def pyIntOpt (s : String) : Option Int :=
  match s.data with
  | [] => none
  | '-' :: cs => if cs = [] then none else (parseNatAux cs 0).map (fun n => -(n : Int))
  | cs => (parseNatAux cs 0).map (fun n => (n : Int))

/-- Python `int(cell)` on the score cells of a sheet row.  `int` raises on
non-numeric text and the surrounding `except` only catches `HttpError`, so the
theorems assume the cells parse (`rowOk`) and the fallback 0 here is never
exercised. -/
def pyInt (s : String) : Int := (pyIntOpt s).getD 0

/-- The dict comprehension of src lines 116–119:
`{keys[i]: int(row[3 + i]) for i in range(len(CATEGORIES))}`. -/
def rowScores (cats : List String) (row : List String) : Dict String Int :=
  cats.enum.foldl (fun acc p => dictSet acc p.2 (pyInt (row.getD (3 + p.1) ""))) []

/-- One iteration of the row loop of `load_from_sheets` (src lines 109–130):
skip short rows, key the dict by `f"{user_name}_{timestamp}"`, create the
record on first sight of a key, and store this row's scores under
`RIB_SETS.index(rib_set)`.  `.index` raises on an unknown rib set, so the
theorems assume `rowOk` and the `indexOf` fallback is never exercised. -/
def processRow (ribSets cats : List String) (m : Dict String Submission)
    (row : List String) : Dict String Submission :=
  if row.length < 8 then m
  else
    let timestamp := row.getD 0 ""
    let user_name := row.getD 1 ""
    let rib_set := row.getD 2 ""
    let key := user_name ++ "_" ++ timestamp
    let set_idx := ribSets.indexOf rib_set
    let m' := if containsKey m key then m else m ++ [(key, ⟨user_name, timestamp, []⟩)]
    updateValue m' key
      (fun s => ⟨s.user_name, s.timestamp, dictSet s.scores set_idx (rowScores cats row)⟩)

/-- `load_from_sheets` (src lines 95–135) after a successful read of `values`:
fold the rows into the keyed dict and return `list(submissions.values())` in
insertion order. -/
def load_from_sheets (ribSets cats : List String) (values : List (List String)) :
    List Submission :=
  (values.foldl (processRow ribSets cats) []).map (fun p => p.2)

/-- Validity of one sheet row: rows that reach the score-parsing code must
name a configured rib set and carry numeric score cells, since Python's
`.index`/`int` would raise (uncaught) otherwise. -/
abbrev rowOk (ribSets cats : List String) (row : List String) : Prop :=
  8 ≤ row.length →
    ((row.getD 2 "") ∈ ribSets ∧ ∀ i < cats.length, (pyIntOpt (row.getD (3 + i) "")).isSome = true)

/-- `[(name, data['total']) for name, data in averages.items()]` (src lines
360, 461); the `'total'` key is always present, so the default 0 is never
exercised. -/
def rankings_list (averages : Dict String (Dict String ℚ)) : List (String × ℚ) :=
  averages.map (fun p => (p.1, dget p.2 "total" 0))

/-- One step of Python's stable sort with `key=lambda x: x[1], reverse=True`
(src lines 359–363, 460–464): descending insertion that keeps an incoming
element after earlier elements with an equal or larger key. -/
def insertDesc (x : String × ℚ) : List (String × ℚ) → List (String × ℚ)
  | [] => [x]
  | y :: ys => if y.2 ≤ x.2 then x :: y :: ys else y :: insertDesc x ys

/-- Stable descending sort on the total, modelling `sorted(…, key=lambda x:
x[1], reverse=True)` (CPython's sort is stable and documented to stay stable
under `reverse=True`). -/
def sortDesc (l : List (String × ℚ)) : List (String × ℚ) := l.foldr insertDesc []

/-- The rankings computed by `results_page` (src lines 359–363) and
`cumulative_page` (src lines 460–464) from a submission list. -/
def results_rankings (cats sets : List String) (scores_list : List Submission) :
    Option (List (String × ℚ)) :=
  (calculate_averages cats sets scores_list).map (fun a => sortDesc (rankings_list a))

/-- The Draft Tracker's validation failure (spec §7). -/
inductive DraftError where
  | validationError

deriving instance DecidableEq for DraftError

/-- Modelled from the spec: the Draft Tracker's `setScore` (spec §4.1).  In the
source the range constraint is enforced by the Streamlit slider widget
(`min_value`/`max_value`, src lines 288–297), an external UI collaborator, so
the rejection path itself is not code under src/.  Following the spec's words:
a value outside `[catMin, catMax]` fails with `ValidationError` and the draft
is left unchanged (no new draft is produced); an in-range value overwrites the
prior entry for that (sample, category) pair. -/
def setScore (draft : Dict Nat (Dict String Int)) (sample : Nat)
    (catMin catMax : Int) (cat_id : String) (value : Int) :
    Except DraftError (Dict Nat (Dict String Int)) :=
  if value < catMin ∨ catMax < value then Except.error DraftError.validationError
  else Except.ok (dictSet draft sample (dictSet (dget draft sample []) cat_id value))

/-- Spec §8 scenario, rater X: S1={A:8,B:6}, S2={A:4,B:4}. -/
def raterX : Submission :=
  ⟨"X", "t1", [(0, [("A", 8), ("B", 6)]), (1, [("A", 4), ("B", 4)])]⟩

/-- Spec §8 scenario, rater Y: S1={A:6,B:4}, S2={A:8,B:8}. -/
def raterY : Submission :=
  ⟨"Y", "t2", [(0, [("A", 6), ("B", 4)]), (1, [("A", 8), ("B", 8)])]⟩

/-- The spec §8 scenario submission list. -/
def scenarioSubs : List Submission := [raterX, raterY]

/-- The spec §8 scenario categories A and B. -/
def scenarioCats : List String := ["A", "B"]

/-- The spec §8 scenario samples S1 and S2. -/
def scenarioSets : List String := ["S1", "S2"]

/-- Written from the spec's words (claim C3): the scores taken from exactly
those records that contain an entry for the (sample, category) pair. -/
def specCollected (scores_list : List Submission) (i : Nat) (cat_id : String) :
    List Int :=
  scores_list.filterMap
    (fun s => (dlookup s.scores i).bind (fun entry => dlookup entry cat_id))

/-- Written from the spec's words (claim C3): the arithmetic mean of a score
collection, or exactly 0 when the collection is empty. -/
def specMean (scores : List Int) : ℚ :=
  if scores = [] then 0
  else ((scores.map (fun x => (x : ℚ))).sum) / (scores.length : ℚ)

/-- The reconciliation key `f"{user_name}_{timestamp}"` of a sheet row
(src line 121). -/
def rowKey (row : List String) : String := row.getD 1 "" ++ "_" ++ row.getD 0 ""

/-- The reconciliation key recomputed from a loaded submission's fields. -/
def skey (s : Submission) : String := s.user_name ++ "_" ++ s.timestamp

/-- Invariant of the dict built by `load_from_sheets`: keys are pairwise
distinct and every stored record's (rater, timestamp) fields recompute its
key. -/
def GoodMap (m : Dict String Submission) : Prop :=
  (m.map (fun p => p.1)).Nodup ∧ ∀ p ∈ m, skey p.2 = p.1

/-- Concrete evaluation of the §8 scenario aggregate in the code's semantics:
means S1 ↦ {A: 7, B: 5}, S2 ↦ {A: 6, B: 6}, totals 60 (not the spec's 12). -/
lemma scenario_aggregate_eval :
    calculate_averages scenarioCats scenarioSets scenarioSubs =
    some [("S1", [("A", 7), ("B", 5), ("total", 60)]),
          ("S2", [("A", 6), ("B", 6), ("total", 60)])] := by
  norm_num [calculate_averages, setEntry, collectScores, meanOrZero, calculate_total,
    scenarioCats, scenarioSets, scenarioSubs, raterX, raterY, dictSet, dget, dlookup,
    containsKey, List.enum, List.enumFrom, List.foldl, List.filter, List.map, List.sum]
  simp only [String.reduceEq, if_false, if_true]
  norm_num

/-! ### Association-list lemmas -/

lemma dlookup_dictSet_self {α β : Type} [DecidableEq α] (d : Dict α β) (k : α) (v : β) :
    dlookup (dictSet d k v) k = some v := by
  induction d with
  | nil => simp [dictSet, dlookup]
  | cons p rest ih =>
    by_cases h : p.1 = k
    · simp [dictSet, h, dlookup]
    · simp [dictSet, h, dlookup, ih]

lemma dlookup_dictSet_ne {α β : Type} [DecidableEq α] (d : Dict α β) (k k' : α) (v : β)
    (h : k' ≠ k) : dlookup (dictSet d k v) k' = dlookup d k' := by
  induction d with
  | nil =>
    simp only [dictSet, dlookup]
    rw [if_neg (Ne.symm h)]
  | cons p rest ih =>
    rcases p with ⟨a, b⟩
    simp only [dictSet]
    by_cases hp : a = k
    · subst hp
      simp only [if_pos rfl, dlookup]
      rw [if_neg (Ne.symm h), if_neg (Ne.symm h)]
    · simp only [if_neg hp, dlookup]
      by_cases hp' : a = k'
      · rw [if_pos hp', if_pos hp']
      · rw [if_neg hp', if_neg hp', ih]

lemma dlookup_foldl_dictSet {α β : Type} [DecidableEq α] (F : α → β) :
    ∀ (ks : List α) (acc : Dict α β) (c : α),
      dlookup (ks.foldl (fun a k => dictSet a k (F k)) acc) c =
        if c ∈ ks then some (F c) else dlookup acc c := by
  intro ks
  induction ks with
  | nil => intro acc c; simp
  | cons k rest ih =>
    intro acc c
    by_cases hc : c ∈ rest
    · simp [List.foldl_cons, ih, hc]
    · by_cases hk : c = k
      · subst hk
        simp [List.foldl_cons, ih, hc, dlookup_dictSet_self]
      · simp [List.foldl_cons, ih, hc, hk, dlookup_dictSet_ne _ _ _ _ hk]

lemma dictSet_fresh {α β : Type} [DecidableEq α] (d : Dict α β) (k : α) (v : β)
    (h : containsKey d k = false) : dictSet d k v = d ++ [(k, v)] := by
  induction d with
  | nil => simp [dictSet]
  | cons p rest ih =>
    simp only [containsKey, dlookup] at h
    by_cases hp : p.1 = k
    · simp [hp] at h
    · simp only [dictSet, hp, if_false, List.cons_append, List.cons.injEq, true_and]
      exact ih (by simpa [containsKey, hp] using h)

lemma containsKey_iff_mem_map_fst {α β : Type} [DecidableEq α] (d : Dict α β) (k : α) :
    containsKey d k = true ↔ k ∈ d.map (fun p => p.1) := by
  induction d with
  | nil => simp [containsKey, dlookup]
  | cons p rest ih =>
    rcases p with ⟨a, b⟩
    simp only [containsKey, dlookup, List.map_cons, List.mem_cons]
    by_cases hp : a = k
    · simp [hp]
    · simp only [if_neg hp]
      constructor
      · intro hh
        exact Or.inr (ih.mp hh)
      · intro hh
        rcases hh with hh | hh
        · exact absurd hh.symm hp
        · exact ih.mpr hh

lemma foldl_dictSet_fresh {α β γ : Type} [DecidableEq α] (key : γ → α) (F : γ → β) :
    ∀ (ps : List γ) (acc : Dict α β),
      (∀ p ∈ ps, containsKey acc (key p) = false) → (ps.map key).Nodup →
      ps.foldl (fun a p => dictSet a (key p) (F p)) acc = acc ++ ps.map (fun p => (key p, F p)) := by
  intro ps
  induction ps with
  | nil => intro acc _ _; simp
  | cons p rest ih =>
    intro acc hfresh hnd
    have hpacc : containsKey acc (key p) = false := hfresh p (by simp)
    have hstep : dictSet acc (key p) (F p) = acc ++ [(key p, F p)] := dictSet_fresh _ _ _ hpacc
    simp only [List.foldl_cons, hstep]
    rw [ih (acc ++ [(key p, F p)])]
    · simp
    · intro q hq
      have hne : key q ≠ key p := by
        intro he
        have : key p ∈ rest.map key := he ▸ List.mem_map_of_mem key hq
        exact (List.nodup_cons.mp (by simpa using hnd)).1 this
      have hqacc : containsKey acc (key q) = false := hfresh q (by simp [hq])
      rw [Bool.eq_false_iff]
      intro hc
      rcases (containsKey_iff_mem_map_fst _ _).mp hc with hmem
      rw [List.map_append] at hmem
      rcases List.mem_append.mp hmem with h1 | h2
      · exact absurd ((containsKey_iff_mem_map_fst _ _).mpr h1) (by simp [hqacc])
      · simp at h2
        exact hne h2
    · exact (List.nodup_cons.mp (by simpa using hnd)).2

/-! ### Aggregation lemmas -/

lemma dget_meanFold (cats : List String) (l : List Submission) (i : Nat) (c : String)
    (hc : c ∈ cats) :
    dget (cats.foldl
        (fun acc cat_id => dictSet acc cat_id (meanOrZero (collectScores l i cat_id))) [])
      c 0 = meanOrZero (collectScores l i c) := by
  unfold dget
  rw [dlookup_foldl_dictSet (fun cat_id => meanOrZero (collectScores l i cat_id)) cats [] c]
  simp [hc]

lemma calculate_total_meanFold (cats : List String) (l : List Submission) (i : Nat) :
    calculate_total cats
        (cats.foldl
          (fun acc cat_id => dictSet acc cat_id (meanOrZero (collectScores l i cat_id))) []) =
      5 * (cats.map (fun c => meanOrZero (collectScores l i c))).sum := by
  unfold calculate_total
  rw [List.map_congr_left
    (fun c hc => by rw [dget_meanFold cats l i c hc] :
      ∀ c ∈ cats,
        dget (cats.foldl
            (fun acc cat_id => dictSet acc cat_id (meanOrZero (collectScores l i cat_id))) [])
          c 0 * 5 = meanOrZero (collectScores l i c) * 5)]
  rw [List.sum_map_mul_right]
  ring

lemma dget_setEntry_total (cats : List String) (l : List Submission) (i : Nat) :
    dget (setEntry cats l i) "total" 0 =
      5 * (cats.map (fun c => meanOrZero (collectScores l i c))).sum := by
  unfold setEntry dget
  rw [dlookup_dictSet_self]
  simp [calculate_total_meanFold]

lemma dget_setEntry_cat (cats : List String) (l : List Submission) (i : Nat) (c : String)
    (hc : c ∈ cats) (hne : c ≠ "total") :
    dget (setEntry cats l i) c 0 = meanOrZero (collectScores l i c) := by
  unfold setEntry
  unfold dget
  rw [dlookup_dictSet_ne _ _ _ _ hne]
  exact dget_meanFold cats l i c hc

lemma calculate_averages_eq (cats sets : List String) (l : List Submission)
    (hl : l ≠ []) (hnd : sets.Nodup) :
    calculate_averages cats sets l =
      some (sets.enum.map (fun p => (p.2, setEntry cats l p.1))) := by
  unfold calculate_averages
  rw [if_neg (by simpa [List.isEmpty_iff] using hl)]
  congr 1
  have := foldl_dictSet_fresh (fun p : Nat × String => p.2)
    (fun p : Nat × String => setEntry cats l p.1) sets.enum []
    (fun p _ => rfl)
    (by rw [show (sets.enum.map fun p => p.2) = sets.enum.map Prod.snd from rfl,
          List.enum_map_snd]; exact hnd)
  simpa using this

lemma calculate_averages_none_iff (cats sets : List String) (l : List Submission) :
    calculate_averages cats sets l = none ↔ l = [] := by
  unfold calculate_averages
  cases l with
  | nil => simp
  | cons s rest => simp

lemma calculate_averages_keys (cats sets : List String) (l : List Submission)
    (agg : Dict String (Dict String ℚ)) (hnd : sets.Nodup)
    (hsome : calculate_averages cats sets l = some agg) :
    agg.map (fun p => p.1) = sets := by
  have hl : l ≠ [] := by
    intro he
    rw [(calculate_averages_none_iff cats sets l).mpr he] at hsome
    exact Option.noConfusion hsome
  rw [calculate_averages_eq cats sets l hl hnd] at hsome
  have hagg := Option.some.inj hsome
  rw [← hagg, List.map_map]
  rw [show ((fun p : String × Dict String ℚ => p.1) ∘ fun p : Nat × String =>
      (p.2, setEntry cats l p.1)) = Prod.snd from rfl]
  exact List.enum_map_snd sets

lemma mem_calculate_averages (cats sets : List String) (l : List Submission)
    (agg : Dict String (Dict String ℚ)) (rs : String) (e : Dict String ℚ)
    (hnd : sets.Nodup) (hsome : calculate_averages cats sets l = some agg)
    (hmem : (rs, e) ∈ agg) : ∃ i, (i, rs) ∈ sets.enum ∧ e = setEntry cats l i := by
  have hl : l ≠ [] := by
    intro he
    rw [(calculate_averages_none_iff cats sets l).mpr he] at hsome
    exact Option.noConfusion hsome
  rw [calculate_averages_eq cats sets l hl hnd] at hsome
  have hagg := Option.some.inj hsome
  rw [← hagg] at hmem
  rcases List.mem_map.mp hmem with ⟨p, hp, hpe⟩
  refine ⟨p.1, ?_, ?_⟩
  · have : p.2 = rs := congrArg Prod.fst hpe
    rw [← this]
    exact hp
  · exact (congrArg Prod.snd hpe).symm

/-! ### Refinement of the score collection against the spec's wording -/

lemma meanOrZero_eq_specMean (scores : List Int) : meanOrZero scores = specMean scores := by
  unfold meanOrZero specMean
  by_cases h : scores = []
  · simp [h]
  · simp [h, List.isEmpty_iff]

lemma collectScores_eq_specCollected (l : List Submission) (i : Nat) (c : String) :
    collectScores l i c = specCollected l i c := by
  induction l with
  | nil => rfl
  | cons s rest ih =>
    unfold collectScores specCollected at ih ⊢
    rw [List.filterMap_cons, List.filter_cons]
    cases hs : dlookup s.scores i with
    | none =>
      simp only [containsKey, dget] at ih ⊢
      simp [hs, ih]
    | some entry =>
      cases he : dlookup entry c with
      | none =>
        simp only [containsKey, dget] at ih ⊢
        simp [hs, he, ih]
      | some v =>
        simp only [containsKey, dget] at ih ⊢
        simp [hs, he, ih]

/-! ### Stable descending sort lemmas -/

lemma mem_insertDesc (x z : String × ℚ) (l : List (String × ℚ)) :
    z ∈ insertDesc x l → z = x ∨ z ∈ l := by
  induction l with
  | nil => intro h; simpa [insertDesc] using h
  | cons y ys ih =>
    intro h
    unfold insertDesc at h
    by_cases hc : y.2 ≤ x.2
    · rw [if_pos hc] at h
      rcases List.mem_cons.mp h with h | h
      · exact Or.inl h
      · exact Or.inr h
    · rw [if_neg hc] at h
      rcases List.mem_cons.mp h with h | h
      · exact Or.inr (List.mem_cons.mpr (Or.inl h))
      · rcases ih h with h | h
        · exact Or.inl h
        · exact Or.inr (List.mem_cons.mpr (Or.inr h))

lemma pairwise_insertDesc (x : String × ℚ) (l : List (String × ℚ))
    (h : l.Pairwise (fun a b => b.2 ≤ a.2)) :
    (insertDesc x l).Pairwise (fun a b => b.2 ≤ a.2) := by
  induction l with
  | nil => simp [insertDesc]
  | cons y ys ih =>
    rcases List.pairwise_cons.mp h with ⟨hy, hys⟩
    unfold insertDesc
    by_cases hc : y.2 ≤ x.2
    · rw [if_pos hc]
      refine List.pairwise_cons.mpr ⟨?_, h⟩
      intro z hz
      rcases List.mem_cons.mp hz with hz | hz
      · rw [hz]; exact hc
      · exact le_trans (hy z hz) hc
    · rw [if_neg hc]
      refine List.pairwise_cons.mpr ⟨?_, ih hys⟩
      intro z hz
      rcases mem_insertDesc x z ys hz with hz | hz
      · rw [hz]; exact le_of_not_le hc
      · exact hy z hz

lemma sortDesc_pairwise (l : List (String × ℚ)) :
    (sortDesc l).Pairwise (fun a b => b.2 ≤ a.2) := by
  induction l with
  | nil => simp [sortDesc]
  | cons x xs ih => exact pairwise_insertDesc x (sortDesc xs) ih

lemma filter_insertDesc (x : String × ℚ) (l : List (String × ℚ)) (t : ℚ) :
    (insertDesc x l).filter (fun p => p.2 = t) =
      if x.2 = t then x :: l.filter (fun p => p.2 = t)
      else l.filter (fun p => p.2 = t) := by
  induction l with
  | nil =>
    by_cases hx : x.2 = t
    · simp [insertDesc, hx]
    · simp [insertDesc, hx]
  | cons y ys ih =>
    unfold insertDesc
    by_cases hc : y.2 ≤ x.2
    · rw [if_pos hc]
      by_cases hx : x.2 = t
      · simp [List.filter_cons, hx]
      · simp [List.filter_cons, hx]
    · rw [if_neg hc]
      have hlt : x.2 < y.2 := lt_of_not_le hc
      by_cases hx : x.2 = t
      · have hy : ¬(y.2 = t) := by
          intro hy
          rw [hx] at hlt
          rw [hy] at hlt
          exact lt_irrefl t hlt
        simp [List.filter_cons, hx, hy, ih]
      · simp [List.filter_cons, hx, ih]

lemma filter_sortDesc (l : List (String × ℚ)) (t : ℚ) :
    (sortDesc l).filter (fun p => p.2 = t) = l.filter (fun p => p.2 = t) := by
  induction l with
  | nil => rfl
  | cons x xs ih =>
    have hstep : sortDesc (x :: xs) = insertDesc x (sortDesc xs) := rfl
    rw [hstep, filter_insertDesc, List.filter_cons]
    by_cases hx : x.2 = t
    · simp [hx, ih]
    · simp [hx, ih]

/-! ### Sheets append lemmas -/

lemma appendRows_fst_true_iff (svc : Nat → Bool) :
    ∀ (rs : List (List Cell)) (k : Nat) (ledger : List (List Cell)),
      (appendRows svc k ledger rs).1 = true ↔ ∀ j < rs.length, svc (k + j) = true := by
  intro rs
  induction rs with
  | nil => intro k ledger; simp [appendRows]
  | cons r rest ih =>
    intro k ledger
    unfold appendRows
    by_cases hk : svc k = true
    · rw [if_pos hk, ih]
      constructor
      · intro h j hj
        cases j with
        | zero => simpa using hk
        | succ j' =>
          have h2 := h j' (Nat.lt_of_succ_lt_succ hj)
          rw [show k + (j' + 1) = k + 1 + j' from by omega]
          exact h2
      · intro h j hj
        have h2 := h (j + 1) (by simpa using Nat.succ_lt_succ hj)
        rw [show k + 1 + j = k + (j + 1) from by omega]
        exact h2
    · rw [if_neg hk]
      refine ⟨fun h => absurd h (by simp), fun h => ?_⟩
      exact absurd (by simpa using h 0 (by simp)) hk

/-! ### Load reconciliation lemmas -/

lemma updateValue_map_fst {α β : Type} [DecidableEq α] (m : Dict α β) (k : α) (f : β → β) :
    (updateValue m k f).map (fun p => p.1) = m.map (fun p => p.1) := by
  induction m with
  | nil => rfl
  | cons p rest ih =>
    rcases p with ⟨a, b⟩
    unfold updateValue
    by_cases ha : a = k
    · rw [if_pos ha]
      simp
    · rw [if_neg ha]
      simpa using ih

lemma mem_updateValue {α β : Type} [DecidableEq α] (m : Dict α β) (k : α) (f : β → β)
    (p : α × β) (hp : p ∈ updateValue m k f) :
    ∃ q ∈ m, p.1 = q.1 ∧ (p.2 = q.2 ∨ p.2 = f q.2) := by
  induction m with
  | nil => simp [updateValue] at hp
  | cons q0 rest ih =>
    rcases q0 with ⟨a, b⟩
    unfold updateValue at hp
    by_cases ha : a = k
    · rw [if_pos ha] at hp
      rcases List.mem_cons.mp hp with hh | hh
      · exact ⟨(a, b), by simp, by rw [hh], Or.inr (by rw [hh])⟩
      · exact ⟨p, List.mem_cons.mpr (Or.inr hh), rfl, Or.inl rfl⟩
    · rw [if_neg ha] at hp
      rcases List.mem_cons.mp hp with hh | hh
      · exact ⟨(a, b), by simp, by rw [hh], Or.inl (by rw [hh])⟩
      · rcases ih hh with ⟨q, hq, h1, h2⟩
        exact ⟨q, List.mem_cons.mpr (Or.inr hq), h1, h2⟩

lemma containsKey_updateValue {α β : Type} [DecidableEq α] (m : Dict α β) (k c : α)
    (f : β → β) : containsKey (updateValue m k f) c = containsKey m c := by
  have h1 := containsKey_iff_mem_map_fst (updateValue m k f) c
  have h2 := containsKey_iff_mem_map_fst m c
  rw [updateValue_map_fst] at h1
  cases hc : containsKey m c with
  | true => exact h1.mpr (h2.mp hc)
  | false =>
    rw [Bool.eq_false_iff]
    intro hh
    have := h2.mpr (h1.mp hh)
    rw [hc] at this
    exact Bool.noConfusion this

lemma containsKey_append_single {α β : Type} [DecidableEq α] (m : Dict α β) (k c : α)
    (v : β) : containsKey (m ++ [(k, v)]) c = true ↔ containsKey m c = true ∨ c = k := by
  rw [containsKey_iff_mem_map_fst, containsKey_iff_mem_map_fst, List.map_append]
  simp

lemma goodMap_processRow (ribSets cats : List String) (m : Dict String Submission)
    (row : List String) (h : GoodMap m) : GoodMap (processRow ribSets cats m row) := by
  unfold processRow
  by_cases hl : row.length < 8
  · rw [if_pos hl]
    exact h
  · rw [if_neg hl]
    dsimp only
    set key := row.getD 1 "" ++ "_" ++ row.getD 0 "" with hkeydef
    set m' := if containsKey m key then m
      else m ++ [(key, ⟨row.getD 1 "", row.getD 0 "", []⟩)] with hm'
    have hgood' : GoodMap m' := by
      rw [hm']
      by_cases hc : containsKey m key = true
      · rw [if_pos hc]
        exact h
      · rw [if_neg hc]
        constructor
        · rw [List.map_append]
          simp only [List.map_cons, List.map_nil]
          rw [List.nodup_append]
          refine ⟨h.1, List.nodup_singleton key, ?_⟩
          intro a ha hb
          simp only [List.mem_singleton] at hb
          rw [hb] at ha
          exact hc ((containsKey_iff_mem_map_fst m key).mpr ha)
        · intro p hp
          rcases List.mem_append.mp hp with hp | hp
          · exact h.2 p hp
          · simp only [List.mem_singleton] at hp
            rw [hp]
            rfl
    constructor
    · rw [updateValue_map_fst]
      exact hgood'.1
    · intro p hp
      rcases mem_updateValue m' key _ p hp with ⟨q, hq, h1, h2⟩
      have hsk : skey q.2 = q.1 := hgood'.2 q hq
      rcases h2 with h2 | h2
      · rw [h1, ← hsk, h2]
      · rw [h1, ← hsk, h2]
        rfl

lemma containsKey_processRow (ribSets cats : List String) (m : Dict String Submission)
    (row : List String) (c : String) :
    containsKey (processRow ribSets cats m row) c = true ↔
      containsKey m c = true ∨ (8 ≤ row.length ∧ rowKey row = c) := by
  unfold processRow
  by_cases hl : row.length < 8
  · rw [if_pos hl]
    constructor
    · exact Or.inl
    · rintro (hc | ⟨h8, _⟩)
      · exact hc
      · omega
  · rw [if_neg hl]
    dsimp only
    rw [containsKey_updateValue]
    have h8 : 8 ≤ row.length := Nat.le_of_not_lt hl
    by_cases hc : containsKey m (row.getD 1 "" ++ "_" ++ row.getD 0 "") = true
    · rw [if_pos hc]
      constructor
      · exact Or.inl
      · rintro (hh | ⟨_, hk⟩)
        · exact hh
        · rw [← hk]
          exact hc
    · rw [if_neg hc]
      rw [containsKey_append_single]
      constructor
      · rintro (hh | hk)
        · exact Or.inl hh
        · exact Or.inr ⟨h8, hk.symm⟩
      · rintro (hh | ⟨_, hk⟩)
        · exact Or.inl hh
        · exact Or.inr hk.symm

lemma load_fold_invariant (ribSets cats : List String) :
    ∀ (values : List (List String)) (m : Dict String Submission), GoodMap m →
      GoodMap (values.foldl (processRow ribSets cats) m) ∧
      (∀ c, containsKey (values.foldl (processRow ribSets cats) m) c = true ↔
        containsKey m c = true ∨ ∃ row ∈ values, 8 ≤ row.length ∧ rowKey row = c) := by
  intro values
  induction values with
  | nil =>
    intro m hm
    exact ⟨hm, fun c => by simp⟩
  | cons row rest ih =>
    intro m hm
    simp only [List.foldl_cons]
    rcases ih (processRow ribSets cats m row) (goodMap_processRow _ _ _ _ hm) with ⟨hg, hk⟩
    refine ⟨hg, fun c => ?_⟩
    rw [hk c, containsKey_processRow]
    constructor
    · rintro ((hh | ⟨h8, hrk⟩) | ⟨r, hr, hx⟩)
      · exact Or.inl hh
      · exact Or.inr ⟨row, by simp, h8, hrk⟩
      · exact Or.inr ⟨r, by simp [hr], hx⟩
    · rintro (hh | ⟨r, hr, hx⟩)
      · exact Or.inl (Or.inl hh)
      · rcases List.mem_cons.mp hr with he | he
        · exact Or.inl (Or.inr (he ▸ hx))
        · exact Or.inr ⟨r, he, hx⟩

lemma filter_fst_length {α β : Type} [DecidableEq α] (k : α) :
    ∀ (m : Dict α β), (m.map (fun p => p.1)).Nodup →
      (m.filter (fun p => p.1 = k)).length = if containsKey m k = true then 1 else 0 := by
  intro m
  induction m with
  | nil =>
    intro _
    simp [containsKey, dlookup]
  | cons p rest ih =>
    intro hnd
    rcases p with ⟨a, b⟩
    simp only [List.map_cons, List.nodup_cons] at hnd
    rcases hnd with ⟨hna, hnd⟩
    rw [List.filter_cons]
    by_cases ha : a = k
    · subst ha
      have hck : containsKey rest a = false := by
        rw [Bool.eq_false_iff]
        intro hc
        exact hna ((containsKey_iff_mem_map_fst rest a).mp hc)
      have hthis : containsKey ((a, b) :: rest) a = true := by
        simp [containsKey, dlookup]
      rw [if_pos (by simp)]
      rw [if_pos hthis, List.length_cons, ih hnd, if_neg (by simp [hck])]
    · have hck : containsKey ((a, b) :: rest) k = containsKey rest k := by
        simp [containsKey, dlookup, ha]
      rw [if_neg (by simp [ha]), hck, ih hnd]

lemma values_filter_skey (m : Dict String Submission) (k : String) (hgood : GoodMap m) :
    ((m.map (fun p => p.2)).filter (fun s => skey s = k)).length =
      (m.filter (fun p => p.1 = k)).length := by
  rw [List.filter_map]
  rw [List.length_map]
  apply congrArg List.length
  apply List.filter_congr
  intro p hp
  have hsk := hgood.2 p hp
  simp [Function.comp, hsk]

/-! ### Claim theorems -/

/-- Counterexample to claim C1 as stated: on the spec §8 scenario the code
computes total 60 for S1 (the per-category means are multiplied by the
unconditional factor 5 of `calculate_total`), not the spec's expected 12. -/
theorem C1_counterexample :
    dget (dget ((calculate_averages scenarioCats scenarioSets scenarioSubs).getD [])
        "S1" []) "total" 0 = 60 ∧ (60 : ℚ) ≠ 12 := by
  constructor
  · rw [scenario_aggregate_eval]
    simp [dget, dlookup, String.reduceEq]
  · norm_num

/-- C1 (amended): every aggregated sample's total is the sum of its
per-category means scaled by the fixed multiplier 5 (`calculate_total` always
multiplies by 5; there is no configuration-profile multiplier), and on the
spec §8 two-rater scenario the aggregate is S1 ↦ means {A: 7, B: 5},
S2 ↦ means {A: 6, B: 6}, with totals 60 and 60 (not 12 and 12). -/
theorem C1_total_is_scaled_mean_sum :
    (∀ (cats : List String) (l : List Submission) (i : Nat),
      dget (setEntry cats l i) "total" 0 =
        5 * (cats.map (fun c => meanOrZero (collectScores l i c))).sum) ∧
    calculate_averages scenarioCats scenarioSets scenarioSubs =
      some [("S1", [("A", 7), ("B", 5), ("total", 60)]),
            ("S2", [("A", 6), ("B", 6), ("total", 60)])] :=
  ⟨fun cats l i => dget_setEntry_total cats l i, scenario_aggregate_eval⟩

/-- Counterexample to claim C2 as stated: aggregating the empty record list
returns `None` (`if not scores_list: return None`), not an aggregate with a
0 mean for every (sample, category) pair and a 0 total for every sample. -/
theorem C2_counterexample :
    calculate_averages CATEGORIES_keys RIB_SETS [] = none := rfl

/-- C2 (amended): calling the aggregation function on an empty sequence of
score records returns `None` — no aggregate at all — and it returns `None`
only in that case; callers guard on emptiness before aggregating. -/
theorem C2_empty_aggregate_is_none (cats sets : List String) (l : List Submission) :
    calculate_averages cats sets l = none ↔ l = [] :=
  calculate_averages_none_iff cats sets l

/-- Counterexample to claim C3 as stated at the empty record sequence: there
the aggregated per-category value for ("Set A", "tenderness") is undefined
(the whole aggregate is `None`), even though no record contains an entry for
that pair, so it is not "exactly 0". -/
theorem C3_counterexample :
    (calculate_averages CATEGORIES_keys RIB_SETS []).map
      (fun agg => dget (dget agg "Set A" []) "tenderness" 0) = none := rfl

/-- C3 (amended): for every NON-EMPTY sequence of score records, every sample
and every category, the aggregated per-category value equals the arithmetic
mean of the scores taken from exactly those records that contain an entry for
that (sample, category) pair (`specMean`/`specCollected` are written from the
spec's words), and is exactly 0 when no record contains such an entry.  For
the empty sequence the aggregate is `None` instead. -/
theorem C3_per_category_mean (cats sets : List String) (l : List Submission)
    (agg : Dict String (Dict String ℚ)) (rs : String) (e : Dict String ℚ)
    (htot : "total" ∉ cats) (hnd : sets.Nodup)
    (hsome : calculate_averages cats sets l = some agg) (hmem : (rs, e) ∈ agg) :
    ∃ i, (i, rs) ∈ sets.enum ∧ ∀ c ∈ cats,
      dget e c 0 = specMean (specCollected l i c) ∧
      (specCollected l i c = [] → dget e c 0 = 0) := by
  rcases mem_calculate_averages cats sets l agg rs e hnd hsome hmem with ⟨i, hi, he⟩
  refine ⟨i, hi, fun c hc => ?_⟩
  have hcne : c ≠ "total" := fun hh => htot (hh ▸ hc)
  have h1 : dget e c 0 = meanOrZero (collectScores l i c) := by
    rw [he]
    exact dget_setEntry_cat cats l i c hc hcne
  constructor
  · rw [h1, meanOrZero_eq_specMean, collectScores_eq_specCollected]
  · intro hnil
    rw [h1, meanOrZero_eq_specMean, collectScores_eq_specCollected, hnil]
    rfl

/-- Witness for C3 at the spec §8 scenario, sample S1. -/
theorem C3_per_category_mean_witness :
    ∃ i, (i, "S1") ∈ scenarioSets.enum ∧ ∀ c ∈ scenarioCats,
      dget [("A", (7 : ℚ)), ("B", 5), ("total", 60)] c 0 =
        specMean (specCollected scenarioSubs i c) ∧
      (specCollected scenarioSubs i c = [] →
        dget [("A", (7 : ℚ)), ("B", 5), ("total", 60)] c 0 = 0) :=
  C3_per_category_mean scenarioCats scenarioSets scenarioSubs
    [("S1", [("A", 7), ("B", 5), ("total", 60)]),
     ("S2", [("A", 6), ("B", 6), ("total", 60)])]
    "S1" [("A", 7), ("B", 5), ("total", 60)]
    (by decide) (by decide) scenario_aggregate_eval (List.mem_cons_self _ _)

/-- C4: the rankings of `results_page`/`cumulative_page` (the same sorting
code) order samples by total descending, and the sort is stable: for any two
samples with equal computed totals (exact rational equality, modelling equal
floating-point totals) the ranked output preserves their relative order in the
aggregate, whose keys are exactly the configured sample list in configured
order.  CPython's `sorted` is stable and documented to remain stable under
`reverse=True`, modelled by the stable descending sort `sortDesc`. -/
theorem C4_rank_stable (cats sets : List String) (l : List Submission)
    (agg : Dict String (Dict String ℚ)) (hnd : sets.Nodup)
    (hsome : calculate_averages cats sets l = some agg) :
    results_rankings cats sets l = some (sortDesc (rankings_list agg)) ∧
    agg.map (fun p => p.1) = sets ∧
    (sortDesc (rankings_list agg)).Pairwise (fun a b => b.2 ≤ a.2) ∧
    ∀ t : ℚ, (sortDesc (rankings_list agg)).filter (fun p => p.2 = t) =
      (rankings_list agg).filter (fun p => p.2 = t) := by
  refine ⟨?_, calculate_averages_keys cats sets l agg hnd hsome,
    sortDesc_pairwise _, fun t => filter_sortDesc _ t⟩
  unfold results_rankings
  rw [hsome]
  rfl

/-- Witness for C4 at the spec §8 scenario (both totals equal 60, and the tie
keeps the configured order [S1, S2]). -/
theorem C4_rank_stable_witness :
    results_rankings scenarioCats scenarioSets scenarioSubs =
      some (sortDesc (rankings_list
        [("S1", [("A", 7), ("B", 5), ("total", 60)]),
         ("S2", [("A", 6), ("B", 6), ("total", 60)])])) ∧
    ([("S1", [("A", (7 : ℚ)), ("B", 5), ("total", 60)]),
      ("S2", [("A", 6), ("B", 6), ("total", 60)])].map (fun p => p.1) = scenarioSets) ∧
    (sortDesc (rankings_list
        [("S1", [("A", 7), ("B", 5), ("total", 60)]),
         ("S2", [("A", 6), ("B", 6), ("total", 60)])])).Pairwise
      (fun a b => b.2 ≤ a.2) ∧
    (sortDesc (rankings_list
        [("S1", [("A", 7), ("B", 5), ("total", 60)]),
         ("S2", [("A", 6), ("B", 6), ("total", 60)])])).filter
        (fun p => p.2 = (60 : ℚ)) =
      (rankings_list
        [("S1", [("A", 7), ("B", 5), ("total", 60)]),
         ("S2", [("A", 6), ("B", 6), ("total", 60)])]).filter
        (fun p => p.2 = (60 : ℚ)) := by
  have h := C4_rank_stable scenarioCats scenarioSets scenarioSubs
    [("S1", [("A", 7), ("B", 5), ("total", 60)]),
     ("S2", [("A", 6), ("B", 6), ("total", 60)])]
    (by decide) scenario_aggregate_eval
  exact ⟨h.1, h.2.1, h.2.2.1, h.2.2.2 60⟩

/-- Counterexample to claim C5 as stated: `fullSub` is a COMPLETE score record
under the source configuration (every rib set scored in every category,
`isComplete` is the completeness check of src lines 314–318), yet for a prior
store state that already contains the identical record, appending it again
makes the snapshot contain it twice, not exactly once — the claim's "every
prior store state" fails even on complete records. -/
theorem C5_counterexample :
    isComplete CATEGORIES_keys RIB_SETS fullSub = true ∧
    (save_submission [mk_entry "X" "t1" fullSub] "X" "t1" fullSub).count
      (mk_entry "X" "t1" fullSub) = 2 ∧
    (2 : Nat) ≠ 1 := by
  refine ⟨?_, ?_, ?_⟩
  · decide
  · decide
  · decide

/-- C5 (amended): appending a record places it at the end of the store, after
all previously stored records (`snapshot` is the store list itself, in
insertion order), and raises its occurrence count by exactly one; it occurs
exactly once whenever it was not already present in the prior state (as with
any fresh timestamp). -/
theorem C5_append_then_snapshot (scores : List Submission) (name now : String)
    (sub : Dict Nat (Dict String Int)) :
    save_submission scores name now sub = scores ++ [mk_entry name now sub] ∧
    (save_submission scores name now sub).count (mk_entry name now sub) =
      scores.count (mk_entry name now sub) + 1 ∧
    (mk_entry name now sub ∉ scores →
      (save_submission scores name now sub).count (mk_entry name now sub) = 1) := by
  refine ⟨rfl, ?_, ?_⟩
  · unfold save_submission
    rw [List.count_append]
    simp
  · intro hnotin
    unfold save_submission
    rw [List.count_append, List.count_eq_zero.mpr hnotin]
    simp

/-- Witness for C5: the complete record `fullSub` appended to the empty prior
store occurs exactly once. -/
theorem C5_append_then_snapshot_witness :
    save_submission [] "X" "t1" fullSub = [] ++ [mk_entry "X" "t1" fullSub] ∧
    (save_submission [] "X" "t1" fullSub).count (mk_entry "X" "t1" fullSub) =
      [].count (mk_entry "X" "t1" fullSub) + 1 ∧
    (save_submission [] "X" "t1" fullSub).count (mk_entry "X" "t1" fullSub) = 1 := by
  have h := C5_append_then_snapshot [] "X" "t1" fullSub
  exact ⟨h.1, h.2.1, h.2.2 (by simp)⟩

/-- C6 (spec-modelled `setScore`): for any category range `[a, b]`, a value
outside the range fails with `ValidationError`; no updated draft is produced,
so the caller's draft — including the prior value for that (sample, category)
entry — is left unchanged. -/
theorem C6_setScore_rejects_out_of_range (draft : Dict Nat (Dict String Int))
    (sample : Nat) (a b : Int) (cat_id : String) (v : Int) (hout : v < a ∨ b < v) :
    setScore draft sample a b cat_id v = Except.error DraftError.validationError := by
  unfold setScore
  rw [if_pos hout]

/-- Witness for C6: value 11 on a [0, 10] category is rejected while the
draft holds a prior value 3 for that entry. -/
theorem C6_setScore_rejects_witness :
    setScore [(0, [("A", 3)])] 0 0 10 "A" 11 =
      Except.error DraftError.validationError :=
  C6_setScore_rejects_out_of_range [(0, [("A", 3)])] 0 0 10 "A" 11 (Or.inr (by decide))

/-- C7: with a connected ledger, `save_submission` appends to the in-memory
store first and the in-memory result never depends on the ledger outcome — a
rejected write leaves the appended record present exactly as on success —
while `save_to_sheets` reports the failure (the caught `HttpError` becomes the
`False` result) exactly when some append RPC fails. -/
theorem C7_ledger_failure_keeps_memory (svc : Nat → Bool) (ledger : List (List Cell))
    (scores : List Submission) (cats sets : List String) (name now : String)
    (sub : Dict Nat (Dict String Int)) :
    (save_submission_full svc true ledger scores cats sets name now sub).1 =
      scores ++ [mk_entry name now sub] ∧
    (save_submission_full svc true ledger scores cats sets name now sub).1 =
      (save_submission_full (fun _ => true) true ledger scores cats sets name now sub).1 ∧
    ((save_submission_full svc true ledger scores cats sets name now sub).2.1 = false ↔
      ∃ j < sets.length, svc j = false) := by
  refine ⟨rfl, rfl, ?_⟩
  have hiff : ((save_submission_full svc true ledger scores cats sets name now sub).2.1 = true
      ↔ ∀ j < sets.length, svc j = true) := by
    have h := appendRows_fst_true_iff svc
      (sets.enum.map (fun p => sheetRow cats (mk_entry name now sub) p.1 p.2)) 0 ledger
    have hlen : (sets.enum.map
        (fun p => sheetRow cats (mk_entry name now sub) p.1 p.2)).length = sets.length := by
      rw [List.length_map, List.enum_length]
    rw [hlen] at h
    have hred : (save_submission_full svc true ledger scores cats sets name now sub).2.1 =
        (appendRows svc 0 ledger
          (sets.enum.map (fun p => sheetRow cats (mk_entry name now sub) p.1 p.2))).1 := rfl
    rw [hred]
    constructor
    · intro hx j hj
      have hh := h.mp hx j hj
      simpa using hh
    · intro hx
      exact h.mpr (fun j hj => by simpa using hx j hj)
  constructor
  · intro hf
    by_contra hne
    push_neg at hne
    have hall : ∀ j < sets.length, svc j = true := by
      intro j hj
      cases hsvc : svc j with
      | false => exact absurd hsvc (hne j hj)
      | true => rfl
    have hcon := hiff.mpr hall
    rw [hf] at hcon
    exact Bool.noConfusion hcon
  · rintro ⟨j, hj, hjf⟩
    cases hb : (save_submission_full svc true ledger scores cats sets name now sub).2.1 with
    | false => rfl
    | true =>
      have hcon := hiff.mp hb j hj
      rw [hjf] at hcon
      exact Bool.noConfusion hcon

/-- C8: reading back from the ledger reconciles rows by the
(rater identifier, timestamp) key: whenever some (well-formed) row carries
rater `u` and timestamp `t`, the returned sequence contains exactly one
logical record with that key, and at most one record carries that exact
(rater, timestamp) field pair.  `rowOk` records that Python's `int()` and
`RIB_SETS.index()` would raise on malformed rows (only `HttpError` is
caught), so only well-formed rows are considered. -/
theorem C8_rows_collapse_by_key (ribSets cats : List String)
    (values : List (List String)) (u t : String)
    (_hok : ∀ row ∈ values, rowOk ribSets cats row)
    (hex : ∃ row ∈ values, 8 ≤ row.length ∧ row.getD 1 "" = u ∧ row.getD 0 "" = t) :
    ((load_from_sheets ribSets cats values).filter
        (fun s => skey s = u ++ "_" ++ t)).length = 1 ∧
    ((load_from_sheets ribSets cats values).filter
        (fun s => s.user_name = u ∧ s.timestamp = t)).length ≤ 1 := by
  have hgood0 : GoodMap ([] : Dict String Submission) :=
    ⟨List.nodup_nil, fun p hp => absurd hp (List.not_mem_nil p)⟩
  rcases load_fold_invariant ribSets cats values [] hgood0 with ⟨hgood, hkeys⟩
  have hck : containsKey (values.foldl (processRow ribSets cats) [])
      (u ++ "_" ++ t) = true := by
    rw [hkeys]
    refine Or.inr ?_
    rcases hex with ⟨row, hrmem, h8, hu, ht⟩
    refine ⟨row, hrmem, h8, ?_⟩
    unfold rowKey
    rw [hu, ht]
  have h1 : ((load_from_sheets ribSets cats values).filter
      (fun s => skey s = u ++ "_" ++ t)).length = 1 := by
    unfold load_from_sheets
    rw [values_filter_skey _ _ hgood, filter_fst_length _ _ hgood.1, if_pos hck]
  refine ⟨h1, ?_⟩
  have hsub : List.Sublist
      ((load_from_sheets ribSets cats values).filter
        (fun s => s.user_name = u ∧ s.timestamp = t))
      ((load_from_sheets ribSets cats values).filter
        (fun s => skey s = u ++ "_" ++ t)) := by
    apply List.monotone_filter_right
    intro s hs
    simp only [decide_eq_true_eq] at hs ⊢
    rcases hs with ⟨hu', ht'⟩
    unfold skey
    rw [hu', ht']
  exact le_trans hsub.length_le (le_of_eq h1)

/-- Witness for C8: two well-formed rows by the same rater and timestamp
collapse into exactly one loaded record. -/
theorem C8_rows_collapse_witness :
    ((load_from_sheets RIB_SETS CATEGORIES_keys
        [["t0", "alice", "Set A", "5", "4", "3", "2", "70"],
         ["t0", "alice", "Set B", "1", "2", "3", "4", "50"]]).filter
        (fun s => skey s = "alice" ++ "_" ++ "t0")).length = 1 ∧
    ((load_from_sheets RIB_SETS CATEGORIES_keys
        [["t0", "alice", "Set A", "5", "4", "3", "2", "70"],
         ["t0", "alice", "Set B", "1", "2", "3", "4", "50"]]).filter
        (fun s => s.user_name = "alice" ∧ s.timestamp = "t0")).length ≤ 1 :=
  C8_rows_collapse_by_key RIB_SETS CATEGORIES_keys
    [["t0", "alice", "Set A", "5", "4", "3", "2", "70"],
     ["t0", "alice", "Set B", "1", "2", "3", "4", "50"]] "alice" "t0"
    (by decide)
    ⟨["t0", "alice", "Set A", "5", "4", "3", "2", "70"], by decide, by decide, rfl, rfl⟩

/-- C9: the aggregation is deterministic and side-effect-free.  It is embedded
as a pure function of the snapshot — the source reads only its argument and
the immutable module constants and builds fresh dicts, mutating neither the
input records nor any other state — so two calls on the same snapshot yield
identical output. -/
theorem C9_aggregation_deterministic (cats sets : List String)
    (l1 l2 : List Submission) (h : l1 = l2) :
    calculate_averages cats sets l1 = calculate_averages cats sets l2 := by
  rw [h]

/-- Witness for C9 at the spec §8 scenario snapshot. -/
theorem C9_aggregation_deterministic_witness :
    calculate_averages scenarioCats scenarioSets scenarioSubs =
      calculate_averages scenarioCats scenarioSets scenarioSubs :=
  C9_aggregation_deterministic scenarioCats scenarioSets scenarioSubs scenarioSubs rfl

/-- Loading one well-formed ledger row in the scenario configuration. -/
lemma C10_load_eval :
    load_from_sheets scenarioSets scenarioCats
      [["t0", "alice", "S1", "5", "4", "3", "2", "70"]] =
      [⟨"alice", "t0", [(0, [("A", 5), ("B", 4)])]⟩] := by decide

/-- Aggregating the loaded ledger record of `C10_load_eval`. -/
lemma C10_agg_eval :
    calculate_averages scenarioCats scenarioSets
      [⟨"alice", "t0", [(0, [("A", 5), ("B", 4)])]⟩] =
      some [("S1", [("A", 5), ("B", 4), ("total", 45)]),
            ("S2", [("A", 0), ("B", 0), ("total", 0)])] := by
  norm_num [calculate_averages, setEntry, collectScores, meanOrZero, calculate_total,
    scenarioCats, scenarioSets, dictSet, dget, dlookup, containsKey,
    List.enum, List.enumFrom, List.foldl, List.filter, List.map, List.sum]
  simp only [String.reduceEq, if_false, if_true]
  norm_num

/-- C10: for every aggregated sample, the total stored in the aggregate is
exactly 5 times the sum of that sample's per-category means, on both the
session path (aggregation of any in-memory snapshot) and the cumulative path
(aggregation of the records loaded back from the ledger): the ×5 factor of
`calculate_total` is unconditional, not a configuration parameter. -/
theorem C10_times_five_both_paths (cats sets : List String) (l : List Submission)
    (rows : List (List String)) (agg1 agg2 : Dict String (Dict String ℚ))
    (rs1 rs2 : String) (e1 e2 : Dict String ℚ)
    (htot : "total" ∉ cats) (hnd : sets.Nodup)
    (h1 : calculate_averages cats sets l = some agg1)
    (h2 : calculate_averages cats sets (load_from_sheets sets cats rows) = some agg2)
    (hm1 : (rs1, e1) ∈ agg1) (hm2 : (rs2, e2) ∈ agg2) :
    dget e1 "total" 0 = 5 * (cats.map (fun c => dget e1 c 0)).sum ∧
    dget e2 "total" 0 = 5 * (cats.map (fun c => dget e2 c 0)).sum := by
  have key : ∀ (lx : List Submission) (agg : Dict String (Dict String ℚ))
      (rs : String) (e : Dict String ℚ),
      calculate_averages cats sets lx = some agg → (rs, e) ∈ agg →
      dget e "total" 0 = 5 * (cats.map (fun c => dget e c 0)).sum := by
    intro lx agg rs e hs hm
    rcases mem_calculate_averages cats sets lx agg rs e hnd hs hm with ⟨i, _, he⟩
    rw [he, dget_setEntry_total]
    congr 1
    apply congrArg List.sum
    apply List.map_congr_left
    intro c hc
    have hcne : c ≠ "total" := fun hh => htot (hh ▸ hc)
    exact (dget_setEntry_cat cats lx i c hc hcne).symm
  exact ⟨key l agg1 rs1 e1 h1 hm1, key _ agg2 rs2 e2 h2 hm2⟩

/-- Witness for C10: sample S1 on the scenario session snapshot (total 60 =
5 × (7 + 5)) and on a one-row cumulative load (total 45 = 5 × (5 + 4)). -/
theorem C10_times_five_witness :
    dget [("A", (7 : ℚ)), ("B", 5), ("total", 60)] "total" 0 =
      5 * (scenarioCats.map
        (fun c => dget [("A", (7 : ℚ)), ("B", 5), ("total", 60)] c 0)).sum ∧
    dget [("A", (5 : ℚ)), ("B", 4), ("total", 45)] "total" 0 =
      5 * (scenarioCats.map
        (fun c => dget [("A", (5 : ℚ)), ("B", 4), ("total", 45)] c 0)).sum :=
  C10_times_five_both_paths scenarioCats scenarioSets scenarioSubs
    [["t0", "alice", "S1", "5", "4", "3", "2", "70"]]
    [("S1", [("A", 7), ("B", 5), ("total", 60)]),
     ("S2", [("A", 6), ("B", 6), ("total", 60)])]
    [("S1", [("A", 5), ("B", 4), ("total", 45)]),
     ("S2", [("A", 0), ("B", 0), ("total", 0)])]
    "S1" "S1"
    [("A", 7), ("B", 5), ("total", 60)] [("A", 5), ("B", 4), ("total", 45)]
    (by decide) (by decide) scenario_aggregate_eval
    (by rw [C10_load_eval]; exact C10_agg_eval)
    (List.mem_cons_self _ _) (List.mem_cons_self _ _)
